import Mathlib

/-!
Verification of the API-Lexia job-orchestration and result-alignment
subsystem.  The Python source is shallowly embedded: machine integers
become `Int`/`Nat`, Python `float` arithmetic on exact inputs is modelled
by exact rationals (`ℚ`), fallible code returns `Except`/`Option`, and
stateful task execution becomes explicit traces.
-/

/-- Python `int(x)` applied to a real value: truncation toward zero,
modelled on exact rationals (`Rat.floor` is used directly so that the
definition evaluates inside the kernel). -/
def pyInt (q : ℚ) : Int := if 0 ≤ q then q.floor else -((-q).floor)

theorem ratFloor_eq_floor (q : ℚ) : q.floor = ⌊q⌋ := by
  rw [Rat.floor_def', Rat.floor_def]

theorem pyInt_of_nonneg {q : ℚ} (h : 0 ≤ q) : pyInt q = ⌊q⌋ := by
  rw [pyInt, if_pos h, ratFloor_eq_floor]

theorem max_one_pyInt (q : ℚ) : max 1 (pyInt q) = max 1 ⌊q⌋ := by
  by_cases h : 0 ≤ q
  · rw [pyInt_of_nonneg h]
  · push_neg at h
    have h1 : pyInt q ≤ 0 := by
      rw [pyInt, if_neg (not_le.mpr h), ratFloor_eq_floor]
      have : (0:ℤ) ≤ ⌊-q⌋ := Int.floor_nonneg.mpr (by linarith)
      omega
    have h2 : ⌊q⌋ ≤ 0 := Int.floor_nonpos h.le
    omega

/-- Python `round(x, 2)` (round half to even) on exact rationals.  Python
rounds the binary double nearest to the exact value; the two agree except
where the double representation itself crosses a tie. -/
def round2 (q : ℚ) : ℚ :=
  let x := 100 * q
  let n := ⌊x⌋
  let m : Int :=
    if x - n < 1/2 then n
    else if 1/2 < x - n then n + 1
    else if Even n then n else n + 1
  (m : ℚ) / 100

/-! ## Job status and the worker status trace (C1)

`src/workers/tasks/transcription.py` / `diarization.py`: the Celery task
is declared with `max_retries=3, default_retry_delay=60`.  The task body
first calls `job_repo.update_status(job, "processing")`; on success the
result is committed (`job_repo.set_result`, which per §4.5 step 6 of the
spec sets `status=completed`); on any exception the handler calls
`job_repo.update_status(job, "failed", ...)` and then `raise task.retry(exc=e)`,
which re-executes the task while retries remain.

Modelled from the spec: `JobRepository.update_status` / `set_result`
(src/db/repositories/job.py is not under src/) write the requested status
to the row; `set_result` sets `status=completed` (§4.5 step 6). -/

inductive JobStatus where
  | pending | queued | processing | completed | failed | cancelled
deriving DecidableEq, Repr

def JobStatus.isTerminal : JobStatus → Bool
  | .completed => true
  | .failed => true
  | .cancelled => true
  | _ => false

/-- The sequence of statuses written to the job row by the worker, given
the success/failure outcome of each execution attempt and the number of
Celery retries still available (`max_retries=3` initially).  Each attempt
writes `processing`, then either `completed` (success) or `failed`
(exception handler); `task.retry` re-executes while retries remain. -/
def workerStatusTrace : List Bool → Nat → List JobStatus
  | [], _ => []
  | ok :: rest, retriesLeft =>
    if ok then [.processing, .completed]
    else
      [.processing, .failed] ++
        (match retriesLeft with
         | 0 => []
         | r + 1 => workerStatusTrace rest r)

theorem workerStatusTrace_head (outcomes : List Bool) (b : Nat)
    (h : outcomes ≠ []) :
    (workerStatusTrace outcomes b)[0]? = some JobStatus.processing := by
  match outcomes with
  | [] => exact absurd rfl h
  | ok :: rest =>
    cases ok <;> simp [workerStatusTrace]

/-- CLAIM C1 counterexample.  With the worker's retry budget of 3, a first
attempt that fails and a second that succeeds produce the status trace
`processing, failed, processing, completed`: the terminal status `failed`
is reached at step 1 — before any retry was attempted — and changes back
to `processing` at step 2.  This refutes both halves of the claim at a
concrete input. -/
theorem C1_counterexample :
    ¬ (∀ (i j : Fin (workerStatusTrace [false, true] 3).length),
        (i : Nat) ≤ (j : Nat) →
        ((workerStatusTrace [false, true] 3).get i).isTerminal = true →
        (workerStatusTrace [false, true] 3).get j =
          (workerStatusTrace [false, true] 3).get i) := by
  intro h
  have := h ⟨1, by decide⟩ ⟨2, by decide⟩ (by decide) (by decide)
  simp [workerStatusTrace] at this

/-- CLAIM C1 (corrected).  In the worker's status trace, `completed` is
final: it can only appear as the last status written.  `failed` is not:
the worker writes `failed` after every failed attempt, before retrying,
and whenever the trace continues past a `failed` entry the very next
status is `processing` (the retry re-executing the task).  `failed` is
therefore stable only once no retry follows — i.e. when the retry budget
is exhausted or the run ends. -/
theorem C1_amended (outcomes : List Bool) (budget i : Nat) :
    ((workerStatusTrace outcomes budget)[i]? = some JobStatus.completed →
      i + 1 = (workerStatusTrace outcomes budget).length) ∧
    ((workerStatusTrace outcomes budget)[i]? = some JobStatus.failed →
      i + 1 < (workerStatusTrace outcomes budget).length →
      (workerStatusTrace outcomes budget)[i+1]? = some JobStatus.processing) := by
  induction outcomes generalizing budget i with
  | nil => simp [workerStatusTrace]
  | cons ok rest ih =>
    cases ok with
    | true =>
      constructor
      · intro h
        match i, h with
        | 1, _ => simp [workerStatusTrace]
        | 0, h => simp [workerStatusTrace] at h
        | (n+2), h => simp [workerStatusTrace] at h
      · intro h
        match i, h with
        | 0, h => simp [workerStatusTrace] at h
        | 1, h =>
          intro hlen
          simp [workerStatusTrace] at hlen
        | (n+2), h => simp [workerStatusTrace] at h
    | false =>
      match budget with
      | 0 =>
        constructor
        · intro h
          match i, h with
          | 0, h => simp [workerStatusTrace] at h
          | 1, h => simp [workerStatusTrace] at h
          | (n+2), h => simp [workerStatusTrace] at h
        · intro h hlen
          match i, h with
          | 0, h => simp [workerStatusTrace] at h
          | 1, h =>
            simp [workerStatusTrace] at hlen
          | (n+2), h => simp [workerStatusTrace] at h
      | b + 1 =>
        have hexp : workerStatusTrace (false :: rest) (b+1) =
            [JobStatus.processing, JobStatus.failed] ++ workerStatusTrace rest b := by
          simp [workerStatusTrace]
        constructor
        · intro h
          match i, h with
          | 0, h => simp [hexp] at h
          | 1, h => simp [hexp] at h
          | (n+2), h =>
            have h' : (workerStatusTrace rest b)[n]? = some JobStatus.completed := by
              simpa [hexp] using h
            have := (ih b n).1 h'
            simp [hexp, List.length_append]
            omega
        · intro h hlen
          match i, h with
          | 0, h => simp [hexp] at h
          | 1, h =>
            -- the retry follows: position 2 is the head of the recursive trace
            have hne : rest ≠ [] := by
              intro hr
              subst hr
              simp [workerStatusTrace] at hlen
            have := workerStatusTrace_head rest b hne
            simpa [hexp] using this
          | (n+2), h =>
            have h' : (workerStatusTrace rest b)[n]? = some JobStatus.failed := by
              simpa [hexp] using h
            have hlen' : n + 1 < (workerStatusTrace rest b).length := by
              simp [hexp, List.length_append] at hlen
              omega
            have := (ih b n).2 h' hlen'
            simpa [hexp] using this

/-- Witness for `C1_amended` at the concrete trace of a job whose first
attempt fails and whose retry succeeds. -/
theorem C1_amended_witness :
    (workerStatusTrace [false, true] 3)[1]? = some JobStatus.failed ∧
    (workerStatusTrace [false, true] 3)[2]? = some JobStatus.processing :=
  ⟨by decide, (C1_amended [false, true] 3 1).2 (by decide) (by decide)⟩

/-! ## Speaker relabeling (C2)

`src/services/diarization/base.py`: `speaker_index_to_letter` is
`chr(ord('A') + index)`; `speaker_id_to_letter` extracts the numeric
suffix of `SPEAKER_XX` ids via `int(speaker_id.split("_")[1])` and maps
it through `speaker_index_to_letter`, returning the id unchanged when the
prefix is absent or parsing fails (`ValueError`/`IndexError`, including
the `ValueError` of an out-of-range `chr`, are caught).
`src/services/diarization/pyannote_backend.py` (`_diarize_local`) walks
the diarization turns in iteration order, keeps those of duration at
least `min_segment_duration`, memoises `speaker_id_to_letter` per raw
label (`speaker_mapping`) and emits millisecond segments.  Python string
primitives are modelled on `List Char`. -/

/-- Digit-string parser: `some n` iff the characters are a non-empty run
of ASCII digits. -/
def digitsToNat? (l : List Char) : Option Nat :=
  if l ≠ [] ∧ l.all Char.isDigit then
    some (l.foldl (fun a c => 10 * a + (c.toNat - 48)) 0)
  else none

/-- Python `int(s)` on a decimal string: surrounding whitespace stripped,
optional single sign, then digits.  (Python additionally allows
underscore group separators inside the digits; the strings parsed here
come out of `str.split("_")` and therefore never contain one.) -/
def parsePyInt? (l : List Char) : Option Int :=
  let t := ((l.dropWhile Char.isWhitespace).reverse.dropWhile
      Char.isWhitespace).reverse
  match t with
  | '+' :: rest => (digitsToNat? rest).map Int.ofNat
  | '-' :: rest => (digitsToNat? rest).map (fun n => -(n : Int))
  | _ => (digitsToNat? t).map Int.ofNat

/-- Python `s.split(sep)` for a one-character separator: empty parts are
kept, `"".split(sep) == [""]`. -/
def pySplitOn (sep : Char) : List Char → List (List Char)
  | [] => [[]]
  | c :: cs =>
    match pySplitOn sep cs with
    | [] => [[]]
    | w :: ws => if c = sep then [] :: w :: ws else (c :: w) :: ws

/-- `chr(ord('A') + index)`: `none` models the `ValueError` Python's
`chr` raises outside `[0, 0x10FFFF]`.  Surrogate code points cannot
inhabit `Char`, so they are also mapped to `none`; Python would return a
lone-surrogate string there, which no label in scope reaches. -/
def speaker_index_to_letter (index : Int) : Option String :=
  let v := 65 + index
  if 0 ≤ v ∧ v ≤ 0x10FFFF ∧ (v < 0xD800 ∨ 0xDFFF < v) then
    some (String.mk [Char.ofNat v.toNat])
  else none

/-- `speaker_id_to_letter` from `src/services/diarization/base.py`. -/
def speaker_id_to_letter (speaker_id : String) : String :=
  if "SPEAKER_".data.isPrefixOf speaker_id.data then
    match (pySplitOn '_' speaker_id.data)[1]? with
    | none => speaker_id
    | some part =>
      match parsePyInt? part with
      | none => speaker_id
      | some index =>
        match speaker_index_to_letter index with
        | none => speaker_id
        | some letter => letter
  else speaker_id

/-- A diarization turn as yielded by `itertracks` (times in seconds). -/
structure Turn where
  speaker : String
  start : ℚ
  stop : ℚ
deriving DecidableEq, Repr

/-- A public speaker segment (times in integer milliseconds; the source
field `end` is spelled `stop` here). -/
structure SpeakerSegment where
  speaker : String
  start : Int
  stop : Int
  confidence : ℚ
deriving DecidableEq, Repr

/-- The relabeling loop of `_diarize_local`: keep turns with
`duration >= min_segment_duration`, memoise `speaker_id_to_letter` per
raw label (`speaker_mapping`), emit segments with `int(turn.start * 1000)`
/ `int(turn.end * 1000)` and confidence 1.0. -/
def relabelLocalGo (minDur : ℚ) : List Turn → List (String × String) →
    List SpeakerSegment
  | [], _ => []
  | t :: ts, mapping =>
    if minDur ≤ t.stop - t.start then
      let mapping' :=
        if (mapping.lookup t.speaker).isSome then mapping
        else (t.speaker, speaker_id_to_letter t.speaker) :: mapping
      { speaker := (mapping'.lookup t.speaker).getD t.speaker,
        start := pyInt (t.start * 1000),
        stop := pyInt (t.stop * 1000),
        confidence := 1 } :: relabelLocalGo minDur ts mapping'
    else relabelLocalGo minDur ts mapping

/-- Segment construction of `_diarize_local`: the raw turns in iteration
order, filtered by minimum duration, relabelled through the
`speaker_mapping` memo (initially empty). -/
def relabelLocalSegments (turns : List Turn) (minDur : ℚ) :
    List SpeakerSegment :=
  relabelLocalGo minDur turns []

theorem relabelLocalGo_speakers (minDur : ℚ) (turns : List Turn)
    (mapping : List (String × String))
    (hinv : ∀ k v, mapping.lookup k = some v → v = speaker_id_to_letter k) :
    (relabelLocalGo minDur turns mapping).map SpeakerSegment.speaker =
      (turns.filter (fun t => decide (minDur ≤ t.stop - t.start))).map
        (fun t => speaker_id_to_letter t.speaker) := by
  induction turns generalizing mapping with
  | nil => simp [relabelLocalGo]
  | cons t ts ih =>
    by_cases hd : minDur ≤ t.stop - t.start
    · have hinv' : ∀ k v,
          ((if (mapping.lookup t.speaker).isSome then mapping
            else (t.speaker, speaker_id_to_letter t.speaker) :: mapping).lookup k
            = some v) → v = speaker_id_to_letter k := by
        intro k v hk
        by_cases hm : (mapping.lookup t.speaker).isSome
        · rw [if_pos hm] at hk
          exact hinv k v hk
        · rw [if_neg hm] at hk
          by_cases hke : k = t.speaker
          · subst hke
            simp [List.lookup] at hk
            exact hk.symm
          · have hbe : (k == t.speaker) = false := beq_eq_false_iff_ne.mpr hke
            simp only [List.lookup, hbe] at hk
            exact hinv k v hk
      have hlook :
          ((if (mapping.lookup t.speaker).isSome then mapping
            else (t.speaker, speaker_id_to_letter t.speaker) :: mapping).lookup
              t.speaker).getD t.speaker = speaker_id_to_letter t.speaker := by
        by_cases hm : (mapping.lookup t.speaker).isSome
        · rw [if_pos hm]
          obtain ⟨v, hv⟩ := Option.isSome_iff_exists.mp hm
          rw [hv]
          simp [hinv t.speaker v hv]
        · rw [if_neg hm]
          simp [List.lookup]
      simp only [relabelLocalGo, if_pos hd, List.map_cons]
      rw [List.filter_cons_of_pos (by simpa using hd)]
      simp only [List.map_cons]
      exact congrArg₂ _ hlook (ih _ hinv')
    · simp only [relabelLocalGo, if_neg hd]
      rw [List.filter_cons_of_neg (by simpa using hd)]
      exact ih _ hinv

/-- The three turns of scenario E6: raw labels arriving in order
`SPEAKER_07, SPEAKER_02, SPEAKER_07`. -/
def e6Turns : List Turn :=
  [⟨"SPEAKER_07", 0, 1⟩, ⟨"SPEAKER_02", 1, 2⟩, ⟨"SPEAKER_07", 2, 3⟩]

/-- CLAIM C2 counterexample.  For raw labels arriving in order
`SPEAKER_07, SPEAKER_02, SPEAKER_07` the relabeling of `_diarize_local`
produces public labels `H, C, H` — the letter comes from the numeric
suffix of the raw label, not from first-appearance order — refuting the
claimed output `A, B, A`. -/
theorem C2_counterexample :
    (relabelLocalSegments e6Turns 0).map SpeakerSegment.speaker = ["H", "C", "H"]
    ∧ ¬ ((relabelLocalSegments e6Turns 0).map SpeakerSegment.speaker
          = ["A", "B", "A"]) := by
  have h7 : speaker_id_to_letter "SPEAKER_07" = "H" := by decide
  have h2 : speaker_id_to_letter "SPEAKER_02" = "C" := by decide
  have hne : ("SPEAKER_07" == "SPEAKER_02") = false := by decide
  have hmain : (relabelLocalSegments e6Turns 0).map SpeakerSegment.speaker
      = ["H", "C", "H"] := by
    norm_num [relabelLocalSegments, relabelLocalGo, e6Turns, List.lookup, h7,
      h2, hne]
  exact ⟨hmain, by rw [hmain]; decide⟩

/-- CLAIM C2 (corrected).  Speaker relabeling is a pointwise function of
the raw label, not of appearance order: every kept segment's public label
is `speaker_id_to_letter` of its raw label, i.e. the letter at alphabet
index equal to the numeric suffix of `SPEAKER_NN` (so equal raw labels
still receive equal letters, but the first novel label need not get `A`;
`SPEAKER_07, SPEAKER_02, SPEAKER_07` yields `H, C, H`). -/
theorem C2_amended (turns : List Turn) (minDur : ℚ) :
    (relabelLocalSegments turns minDur).map SpeakerSegment.speaker =
      (turns.filter (fun t => decide (minDur ≤ t.stop - t.start))).map
        (fun t => speaker_id_to_letter t.speaker) :=
  relabelLocalGo_speakers minDur turns []
    (by intro k v h; simp [List.lookup] at h)

/-! ## The alignment engine (C3, C4)

`_align_text_with_diarization` in `src/workers/tasks/transcription.py`.
Diarization segments arrive in milliseconds (`int(seg.start)` is the
identity on them); STT words arrive with float-second timestamps and are
converted via `int(w.start * 1000)`.  Python float arithmetic on the
exact inputs is modelled by exact rationals, `" ".join` / `.strip()` /
`.split()` by the char-list functions below, and Python's stable `sorted`
by a stable insertion sort. -/

/-- An STT word as produced by the backend (times in float seconds). -/
structure SttWord where
  text : String
  start : ℚ
  stop : ℚ
deriving DecidableEq, Repr

/-- A word of the internal `word_list` (times in integer milliseconds). -/
structure AWord where
  text : String
  start : Int
  stop : Int
deriving DecidableEq, Repr

/-- An utterance (the source field `end` is spelled `stop`). -/
structure Utterance where
  speaker : String
  start : Int
  stop : Int
  text : String
  confidence : ℚ
deriving DecidableEq, Repr

/-- Python `" ".join(l)`. -/
def pyJoinSpace : List String → String
  | [] => ""
  | [x] => x
  | x :: xs => x ++ " " ++ pyJoinSpace xs

/-- Python `s.strip()` on the underlying character list. -/
def pyStripList (l : List Char) : List Char :=
  ((l.dropWhile Char.isWhitespace).reverse.dropWhile Char.isWhitespace).reverse

/-- Python `s.strip()`. -/
def pyStrip (s : String) : String := String.mk (pyStripList s.data)

/-- Python `s.split()` worker: split on runs of whitespace, no empty
parts; `acc` holds the current word reversed. -/
def pyWordsAux : List Char → List Char → List (List Char)
  | [], acc => if acc = [] then [] else [acc.reverse]
  | c :: cs, acc =>
    if c.isWhitespace then
      if acc = [] then pyWordsAux cs []
      else acc.reverse :: pyWordsAux cs []
    else pyWordsAux cs (c :: acc)

/-- Python `s.split()` (no separator argument). -/
def pySplitWs (s : String) : List String := (pyWordsAux s.data []).map String.mk

/-- Stable insertion of a segment into a list sorted by `start`: the new
element goes before the first element whose `start` is not smaller, so
elements with equal keys keep their original relative order — the
extensional behaviour of Python's stable `sorted(key=lambda s: s.start)`. -/
def insertByStart (x : SpeakerSegment) : List SpeakerSegment →
    List SpeakerSegment
  | [] => [x]
  | y :: ys => if y.start < x.start then y :: insertByStart x ys else x :: y :: ys

/-- `sorted(diar_segments, key=lambda s: s.start)`. -/
def sortByStart : List SpeakerSegment → List SpeakerSegment
  | [] => []
  | x :: xs => insertByStart x (sortByStart xs)

/-- The entry conversion of the precise path: `int(w.start * 1000)`,
`int(w.end * 1000)`. -/
def wordToMs (w : SttWord) : AWord :=
  ⟨w.text, pyInt (w.start * 1000), pyInt (w.stop * 1000)⟩

/-- The precise path: for each (sorted) segment, join the texts of the
words overlapping it (`word['start'] < seg_end and word['end'] > seg_start`),
single-space separated, stripped. -/
def alignPrecise (word_list : List AWord)
    (sorted_segments : List SpeakerSegment) : List Utterance :=
  sorted_segments.map fun seg =>
    { speaker := seg.speaker,
      start := seg.start,
      stop := seg.stop,
      text := pyStrip (pyJoinSpace ((word_list.filter
        (fun w => decide (w.start < seg.stop) && decide (w.stop > seg.start))).map
          AWord.text)),
      confidence := seg.confidence }

/-- `max(1, int(proportion * total_words))` for one segment of the
proportional path (`proportion = seg_duration / total_duration`). -/
def propNumWords (D : Int) (N : Nat) (seg : SpeakerSegment) : Nat :=
  (max 1 (pyInt (((seg.stop - seg.start : Int) : ℚ) / (D : ℚ) * (N : ℚ)))).toNat

/-- The per-segment loop of the proportional path, carrying the running
`word_index` cursor. -/
def alignPropLoop (tokens : List String) (D : Int) (N : Nat) :
    List SpeakerSegment → Nat → List Utterance
  | [], _ => []
  | seg :: rest, word_index =>
    let num_words := propNumWords D N seg
    { speaker := seg.speaker,
      start := seg.start,
      stop := seg.stop,
      text := pyStrip (pyJoinSpace ((tokens.drop word_index).take num_words)),
      confidence := seg.confidence } ::
      alignPropLoop tokens D N rest (word_index + num_words)

/-- The value of `word_index` after the proportional loop. -/
def cursorEnd (D : Int) (N : Nat) : List SpeakerSegment → Nat → Nat
  | [], idx => idx
  | seg :: rest, idx => cursorEnd D N rest (idx + propNumWords D N seg)

/-- `utterances[-1]["text"] = f(utterances[-1]["text"])`. -/
def updateLastText (f : String → String) : List Utterance → List Utterance
  | [] => []
  | [u] => [{ u with text := f u.text }]
  | u :: rest => u :: updateLastText f rest

/-- `_align_text_with_diarization` (transcription worker).  `text` is the
full transcript, `words` the backend word list (float seconds),
`diar_segments` the diarization segments (ms). -/
def alignTextWithDiarization (text : String) (words : List SttWord)
    (diar_segments : List SpeakerSegment) : List Utterance :=
  if diar_segments = [] then []
  else
    let sorted_segments := sortByStart diar_segments
    if words ≠ [] then
      alignPrecise (words.map wordToMs) sorted_segments
    else
      let total_duration := (sorted_segments.map
        (fun s => s.stop - s.start)).sum
      if 0 < total_duration ∧ text ≠ "" then
        let text_words := pySplitWs text
        let total_words := text_words.length
        let utterances := alignPropLoop text_words total_duration total_words
          sorted_segments 0
        let word_index := cursorEnd total_duration total_words
          sorted_segments 0
        if word_index < total_words ∧ utterances ≠ [] then
          updateLastText (fun t =>
            pyStrip (t ++ " " ++ pyJoinSpace (text_words.drop word_index)))
            utterances
        else utterances
      else
        sorted_segments.map fun seg =>
          { speaker := seg.speaker,
            start := seg.start,
            stop := seg.stop,
            text := "",
            confidence := seg.confidence }

/-- Token count a segment is due under the proportional-path CLAIM:
`max(1, ⌊((s.end − s.start)/D)·N⌋)`.  (The code truncates toward zero
where the claim floors; under `max 1` the two agree.) -/
def claimNumWords (D : Int) (N : Nat) (seg : SpeakerSegment) : Nat :=
  (max 1 ⌊((seg.stop - seg.start : Int) : ℚ) / (D : ℚ) * (N : ℚ)⌋).toNat

/-- The proportional path as worded by the spec: each segment takes its
`claimNumWords` tokens from the running cursor, and the last segment's
text additionally carries all leftover tokens, single-space separated. -/
def specPropGo (tokens : List String) (D : Int) (N : Nat) :
    List SpeakerSegment → Nat → List Utterance
  | [], _ => []
  | [seg], idx =>
    let n := claimNumWords D N seg
    [{ speaker := seg.speaker,
       start := seg.start,
       stop := seg.stop,
       text := pyJoinSpace ((tokens.drop idx).take n ++ tokens.drop (idx + n)),
       confidence := seg.confidence }]
  | seg :: rest, idx =>
    let n := claimNumWords D N seg
    { speaker := seg.speaker,
      start := seg.start,
      stop := seg.stop,
      text := pyJoinSpace ((tokens.drop idx).take n),
      confidence := seg.confidence } :: specPropGo tokens D N rest (idx + n)

/-- Spec-side proportional alignment over an (already sorted) segment
list: `D = Σ(s.end − s.start)`, `N` whitespace tokens of `T`. -/
def specProportionalAlign (text : String) (segs : List SpeakerSegment) :
    List Utterance :=
  let tokens := pySplitWs text
  specPropGo tokens ((segs.map (fun s => s.stop - s.start)).sum)
    tokens.length segs 0

/-- A whitespace-split token: non-empty and free of whitespace. -/
def CleanToken (w : String) : Prop :=
  w ≠ "" ∧ ∀ c ∈ w.data, ¬ c.isWhitespace

theorem string_data_eq_nil {s : String} (h : s.data = []) : s = "" := by
  cases s with
  | mk data => cases h; rfl

theorem string_mk_data (s : String) : String.mk s.data = s := by
  cases s; rfl

theorem mem_of_head?_eq {α : Type} {l : List α} {a : α}
    (h : l.head? = some a) : a ∈ l := by
  cases l with
  | nil => simp at h
  | cons b bs =>
    simp at h
    simp [h]

theorem mem_of_getLast?_eq {α : Type} {l : List α} {a : α}
    (h : l.getLast? = some a) : a ∈ l := by
  have hh : l.reverse.head? = some a := by
    rw [List.head?_reverse]
    exact h
  exact List.mem_reverse.mp (mem_of_head?_eq hh)

theorem pyWordsAux_clean : ∀ (l acc : List Char),
    (∀ c ∈ acc, ¬ c.isWhitespace) →
    ∀ w ∈ pyWordsAux l acc, w ≠ [] ∧ ∀ c ∈ w, ¬ c.isWhitespace := by
  intro l
  induction l with
  | nil =>
    intro acc hacc w hw
    by_cases h : acc = []
    · simp [pyWordsAux, h] at hw
    · simp [pyWordsAux, h] at hw
      subst hw
      exact ⟨by simpa using h, by intro c hc; exact hacc c (List.mem_reverse.mp hc)⟩
  | cons c cs ih =>
    intro acc hacc w hw
    by_cases hws : c.isWhitespace
    · by_cases h : acc = []
      · simp only [pyWordsAux, if_pos hws, if_pos h] at hw
        exact ih [] (by simp) w hw
      · simp only [pyWordsAux, if_pos hws, if_neg h, List.mem_cons] at hw
        rcases hw with hw | hw
        · subst hw
          exact ⟨by simpa using h, by intro d hd; exact hacc d (List.mem_reverse.mp hd)⟩
        · exact ih [] (by simp) w hw
    · simp only [pyWordsAux, if_neg hws] at hw
      refine ih (c :: acc) ?_ w hw
      intro d hd
      rcases List.mem_cons.mp hd with hd | hd
      · subst hd; exact hws
      · exact hacc d hd

theorem pySplitWs_clean (s : String) : ∀ w ∈ pySplitWs s, CleanToken w := by
  intro w hw
  simp only [pySplitWs, List.mem_map] at hw
  obtain ⟨l, hl, rfl⟩ := hw
  obtain ⟨h1, h2⟩ := pyWordsAux_clean s.data [] (by simp) l hl
  constructor
  · intro h
    exact h1 (by simpa using congrArg String.data h)
  · intro c hc
    exact h2 c hc

theorem pyStripList_eq_self {l : List Char}
    (h1 : ∀ c, l.head? = some c → ¬ c.isWhitespace)
    (h2 : ∀ c, l.getLast? = some c → ¬ c.isWhitespace) :
    pyStripList l = l := by
  unfold pyStripList
  have hd : l.dropWhile Char.isWhitespace = l := by
    cases l with
    | nil => rfl
    | cons a as =>
      rw [List.dropWhile_cons]
      simp [h1 a rfl]
  rw [hd]
  have hrev : l.reverse.dropWhile Char.isWhitespace = l.reverse := by
    cases hrl : l.reverse with
    | nil => rfl
    | cons a as =>
      rw [List.dropWhile_cons]
      have hlast : l.getLast? = some a := by
        rw [← List.head?_reverse, hrl]
        rfl
      simp [h2 a hlast]
  rw [hrev, List.reverse_reverse]

theorem joinSpace_ends : ∀ (ws : List String), ws ≠ [] →
    (∀ w ∈ ws, CleanToken w) →
    (pyJoinSpace ws).data ≠ [] ∧
    (∀ c, (pyJoinSpace ws).data.head? = some c → ¬ c.isWhitespace) ∧
    (∀ c, (pyJoinSpace ws).data.getLast? = some c → ¬ c.isWhitespace) := by
  intro ws
  induction ws with
  | nil => intro h; exact absurd rfl h
  | cons x xs ih =>
    intro _ hclean
    obtain ⟨hx1, hx2⟩ := hclean x (by simp)
    have hxd : x.data ≠ [] := fun h => hx1 (string_data_eq_nil h)
    cases xs with
    | nil =>
      refine ⟨by simpa [pyJoinSpace] using hxd, ?_, ?_⟩
      · intro c hc
        have hc' : x.data.head? = some c := by simpa [pyJoinSpace] using hc
        exact hx2 c (mem_of_head?_eq hc')
      · intro c hc
        have hc' : x.data.getLast? = some c := by simpa [pyJoinSpace] using hc
        exact hx2 c (mem_of_getLast?_eq hc')
    | cons y ys =>
      have hxs : (y :: ys : List String) ≠ [] := by simp
      obtain ⟨hj1, hj2, hj3⟩ := ih hxs (fun w hw => hclean w (by simp [hw]))
      have hdata : (pyJoinSpace (x :: y :: ys)).data =
          x.data ++ ' ' :: (pyJoinSpace (y :: ys)).data := by
        show (x ++ " " ++ pyJoinSpace (y :: ys)).data = _
        simp [String.data_append]
      refine ⟨?_, ?_, ?_⟩
      · rw [hdata]; simp
      · intro c hc
        rw [hdata] at hc
        obtain ⟨a, as, hxa⟩ := List.exists_cons_of_ne_nil hxd
        rw [hxa] at hc
        simp at hc
        exact hx2 c (by simp [hxa, hc])
      · intro c hc
        rw [hdata, List.getLast?_append_cons] at hc
        rcases hj1' : (pyJoinSpace (y :: ys)).data with _ | ⟨b, bs⟩
        · exact absurd hj1' hj1
        · rw [hj1', List.getLast?_cons_cons] at hc
          exact hj3 c (by rw [hj1']; exact hc)

theorem pyStrip_join_clean (ws : List String)
    (hclean : ∀ w ∈ ws, CleanToken w) :
    pyStrip (pyJoinSpace ws) = pyJoinSpace ws := by
  cases ws with
  | nil => rfl
  | cons x xs =>
    obtain ⟨h0, h1, h2⟩ := joinSpace_ends (x :: xs) (by simp) hclean
    show String.mk (pyStripList (pyJoinSpace (x :: xs)).data) = _
    rw [pyStripList_eq_self h1 h2, string_mk_data]

theorem string_append_assoc (a b c : String) : a ++ b ++ c = a ++ (b ++ c) := by
  apply String.ext
  simp [String.data_append, List.append_assoc]

theorem pyJoinSpace_append : ∀ (a b : List String), a ≠ [] → b ≠ [] →
    pyJoinSpace (a ++ b) = pyJoinSpace a ++ " " ++ pyJoinSpace b := by
  intro a
  induction a with
  | nil => intro b h; exact absurd rfl h
  | cons x xs ih =>
    intro b _ hb
    cases xs with
    | nil =>
      cases b with
      | nil => exact absurd rfl hb
      | cons y ys => rfl
    | cons z zs =>
      show x ++ " " ++ pyJoinSpace ((z :: zs) ++ b) =
          (x ++ " " ++ pyJoinSpace (z :: zs)) ++ " " ++ pyJoinSpace b
      rw [ih b (by simp) hb]
      simp [string_append_assoc]

/-- A segment list sorted ascending by `start` (the hypothesis under
which the alignment claims quantify). -/
def SortedByStart : List SpeakerSegment → Bool
  | [] => true
  | [_] => true
  | a :: b :: rest => decide (a.start ≤ b.start) && SortedByStart (b :: rest)

theorem sortByStart_of_sorted : ∀ {l : List SpeakerSegment},
    SortedByStart l = true → sortByStart l = l := by
  intro l
  induction l with
  | nil => intro _; rfl
  | cons x xs ih =>
    intro h
    have hxs : SortedByStart xs = true := by
      cases xs with
      | nil => rfl
      | cons y ys =>
        have := (Bool.and_eq_true _ _).mp h
        exact this.2
    show insertByStart x (sortByStart xs) = x :: xs
    rw [ih hxs]
    cases xs with
    | nil => rfl
    | cons y ys =>
      have hxy : x.start ≤ y.start := by
        have := (Bool.and_eq_true _ _).mp h
        exact of_decide_eq_true this.1
      show (if y.start < x.start then y :: insertByStart x ys else x :: y :: ys)
          = x :: y :: ys
      rw [if_neg (not_lt.mpr hxy)]

theorem alignPropLoop_ne_nil (tokens : List String) (D : Int) (N : Nat)
    (segs : List SpeakerSegment) (idx : Nat) (h : segs ≠ []) :
    alignPropLoop tokens D N segs idx ≠ [] := by
  cases segs with
  | nil => exact absurd rfl h
  | cons s ss => simp [alignPropLoop]

theorem updateLastText_cons (f : String → String) (u : Utterance)
    (rest : List Utterance) (h : rest ≠ []) :
    updateLastText f (u :: rest) = u :: updateLastText f rest := by
  cases rest with
  | nil => exact absurd rfl h
  | cons v vs => rfl

theorem propNumWords_eq_claim (D : Int) (N : Nat) (seg : SpeakerSegment) :
    propNumWords D N seg = claimNumWords D N seg := by
  unfold propNumWords claimNumWords
  rw [max_one_pyInt]

theorem one_le_propNumWords (D : Int) (N : Nat) (seg : SpeakerSegment) :
    1 ≤ propNumWords D N seg := by
  unfold propNumWords
  have h : (1 : Int) ≤ max 1 (pyInt (((seg.stop - seg.start : Int) : ℚ)
      / (D : ℚ) * (N : ℚ))) := le_max_left _ _
  omega

theorem clean_slice {tokens : List String}
    (hclean : ∀ w ∈ tokens, CleanToken w) (idx n : Nat) :
    ∀ w ∈ (tokens.drop idx).take n, CleanToken w := by
  intro w hw
  exact hclean w (List.mem_of_mem_drop (List.mem_of_mem_take hw))

theorem clean_drop {tokens : List String}
    (hclean : ∀ w ∈ tokens, CleanToken w) (idx : Nat) :
    ∀ w ∈ tokens.drop idx, CleanToken w := by
  intro w hw
  exact hclean w (List.mem_of_mem_drop hw)

/-- Patching the last utterance of the code's proportional loop with the
leftover tokens produces exactly the spec-worded proportional alignment. -/
theorem alignProp_patched_eq (tokens : List String)
    (hclean : ∀ w ∈ tokens, CleanToken w) (D : Int) :
    ∀ (segs : List SpeakerSegment) (idx : Nat),
    (if cursorEnd D tokens.length segs idx < tokens.length ∧
        alignPropLoop tokens D tokens.length segs idx ≠ [] then
       updateLastText (fun t =>
         pyStrip (t ++ " " ++
           pyJoinSpace (tokens.drop (cursorEnd D tokens.length segs idx))))
         (alignPropLoop tokens D tokens.length segs idx)
     else alignPropLoop tokens D tokens.length segs idx)
    = specPropGo tokens D tokens.length segs idx := by
  intro segs
  induction segs with
  | nil =>
    intro idx
    rw [if_neg (by simp [alignPropLoop])]
    rfl
  | cons seg tail ih =>
    intro idx
    have hclaim : claimNumWords D tokens.length seg =
        propNumWords D tokens.length seg :=
      (propNumWords_eq_claim D tokens.length seg).symm
    have hslice : ∀ w ∈ (tokens.drop idx).take
        (propNumWords D tokens.length seg), CleanToken w :=
      clean_slice hclean idx _
    have hstrip : pyStrip (pyJoinSpace ((tokens.drop idx).take
          (propNumWords D tokens.length seg))) =
        pyJoinSpace ((tokens.drop idx).take
          (propNumWords D tokens.length seg)) :=
      pyStrip_join_clean _ hslice
    cases tail with
    | nil =>
      by_cases hc : idx + propNumWords D tokens.length seg < tokens.length
      · rw [if_pos (by
          constructor
          · exact hc
          · simp [alignPropLoop])]
        have hrest : tokens.drop (idx + propNumWords D tokens.length seg)
            ≠ [] := by
          intro h
          rw [List.drop_eq_nil_iff] at h
          omega
        have hdrop_ne : tokens.drop idx ≠ [] := by
          intro h
          rw [List.drop_eq_nil_iff] at h
          have := one_le_propNumWords D tokens.length seg
          omega
        have hslice_ne : (tokens.drop idx).take
            (propNumWords D tokens.length seg) ≠ [] := by
          rw [Ne, List.take_eq_nil_iff]
          push_neg
          have := one_le_propNumWords D tokens.length seg
          exact ⟨by omega, hdrop_ne⟩
        have htext : pyStrip (pyStrip (pyJoinSpace ((tokens.drop idx).take
              (propNumWords D tokens.length seg))) ++ " " ++
              pyJoinSpace (tokens.drop
                (idx + propNumWords D tokens.length seg))) =
            pyJoinSpace ((tokens.drop idx).take
              (propNumWords D tokens.length seg) ++
              tokens.drop (idx + propNumWords D tokens.length seg)) := by
          rw [hstrip, ← pyJoinSpace_append _ _ hslice_ne hrest]
          exact pyStrip_join_clean _ (by
            intro w hw
            rcases List.mem_append.mp hw with h | h
            · exact hslice w h
            · exact clean_drop hclean _ w h)
        simp only [alignPropLoop, cursorEnd, updateLastText, specPropGo,
          hclaim]
        rw [htext]
      · rw [if_neg (by
          intro hcon
          exact hc (by simpa [cursorEnd] using hcon.1))]
        have hdropnil : tokens.drop (idx + propNumWords D tokens.length seg)
            = [] := by
          rw [List.drop_eq_nil_iff]
          omega
        simp only [alignPropLoop, specPropGo, hclaim, hdropnil,
          List.append_nil]
        rw [hstrip]
    | cons z zs =>
      have hloops_ne : alignPropLoop tokens D tokens.length (z :: zs)
          (idx + propNumWords D tokens.length seg) ≠ [] :=
        alignPropLoop_ne_nil tokens D tokens.length (z :: zs) _ (by simp)
      have hcursor : cursorEnd D tokens.length (seg :: z :: zs) idx =
          cursorEnd D tokens.length (z :: zs)
            (idx + propNumWords D tokens.length seg) := rfl
      by_cases hc : cursorEnd D tokens.length (z :: zs)
          (idx + propNumWords D tokens.length seg) < tokens.length
      · rw [if_pos (by
          rw [hcursor]
          exact ⟨hc, by simp [alignPropLoop]⟩)]
        have hstep : alignPropLoop tokens D tokens.length (seg :: z :: zs) idx
            = { speaker := seg.speaker, start := seg.start, stop := seg.stop,
                text := pyStrip (pyJoinSpace ((tokens.drop idx).take
                  (propNumWords D tokens.length seg))),
                confidence := seg.confidence } ::
              alignPropLoop tokens D tokens.length (z :: zs)
                (idx + propNumWords D tokens.length seg) := rfl
        rw [hcursor, hstep, updateLastText_cons _ _ _ hloops_ne]
        have htail := ih (idx + propNumWords D tokens.length seg)
        rw [if_pos ⟨hc, hloops_ne⟩] at htail
        simp only [specPropGo, hclaim]
        rw [hstrip, htail]
      · rw [if_neg (by
          rw [hcursor]
          tauto)]
        have htail := ih (idx + propNumWords D tokens.length seg)
        rw [if_neg (by tauto)] at htail
        have hstep : alignPropLoop tokens D tokens.length (seg :: z :: zs) idx
            = { speaker := seg.speaker, start := seg.start, stop := seg.stop,
                text := pyStrip (pyJoinSpace ((tokens.drop idx).take
                  (propNumWords D tokens.length seg))),
                confidence := seg.confidence } ::
              alignPropLoop tokens D tokens.length (z :: zs)
                (idx + propNumWords D tokens.length seg) := rfl
        rw [hstep]
        simp only [specPropGo, hclaim]
        rw [hstrip, htail]

/-- CLAIM C3.  In the proportional path (no word timestamps), for every
segment list sorted by start time: when the total duration `D` is
positive and the transcript `T` is non-empty, the engine gives each
segment `max(1, ⌊((s.end−s.start)/D)·N⌋)` whitespace tokens of `T` from a
running cursor and appends the leftover tokens to the last utterance's
text (`specProportionalAlign` is that procedure, worded as in the spec);
when `D = 0` or `T` is empty it emits one empty-text utterance per
segment, preserving segment timing and confidence. -/
theorem C3_proportional (text : String) (segs : List SpeakerSegment)
    (hsorted : SortedByStart segs = true) :
    (0 < (segs.map (fun s => s.stop - s.start)).sum → text ≠ "" →
      alignTextWithDiarization text [] segs = specProportionalAlign text segs)
    ∧ ((segs.map (fun s => s.stop - s.start)).sum = 0 ∨ text = "" →
      alignTextWithDiarization text [] segs =
        segs.map (fun seg =>
          { speaker := seg.speaker, start := seg.start, stop := seg.stop,
            text := "", confidence := seg.confidence })) := by
  cases segs with
  | nil =>
    constructor
    · intro _ _
      simp [alignTextWithDiarization, specProportionalAlign, specPropGo]
    · intro _
      simp [alignTextWithDiarization]
  | cons a as =>
    have hsort_eq : sortByStart (a :: as) = a :: as :=
      sortByStart_of_sorted hsorted
    constructor
    · intro hD htext
      unfold alignTextWithDiarization
      rw [if_neg (by simp)]
      simp only [hsort_eq]
      rw [if_neg (by simp)]
      rw [if_pos ⟨hD, htext⟩]
      have := alignProp_patched_eq (pySplitWs text) (pySplitWs_clean text)
        ((List.map (fun s => s.stop - s.start) (a :: as)).sum) (a :: as) 0
      rw [this]
      rfl
    · intro hdeg
      unfold alignTextWithDiarization
      rw [if_neg (by simp)]
      simp only [hsort_eq]
      rw [if_neg (by simp)]
      rw [if_neg (by
        rcases hdeg with h | h
        · intro hcon
          rw [h] at hcon
          exact lt_irrefl 0 hcon.1
        · intro hcon
          exact hcon.2 h)]

/-- The two segments of scenario E2. -/
def e2Segs : List SpeakerSegment :=
  [⟨"A", 0, 1000, 1⟩, ⟨"B", 1000, 3000, 1⟩]

theorem e2_claimNumWords_A :
    claimNumWords 3000 4 ⟨"A", 0, 1000, 1⟩ = 1 := by
  unfold claimNumWords
  norm_num

theorem e2_claimNumWords_B :
    claimNumWords 3000 4 ⟨"B", 1000, 3000, 1⟩ = 2 := by
  unfold claimNumWords
  norm_num
  decide

/-- Witness for `C3_proportional` at scenario E2: text
`"un deux trois quatre"`, segments `(A,0,1000)` and `(B,1000,3000)`
produce utterance texts `"un"` and `"deux trois quatre"`. -/
theorem C3_proportional_witness :
    alignTextWithDiarization "un deux trois quatre" [] e2Segs =
      [⟨"A", 0, 1000, "un", 1⟩, ⟨"B", 1000, 3000, "deux trois quatre", 1⟩] := by
  have h := (C3_proportional "un deux trois quatre" e2Segs (by decide)).1
    (by decide) (by decide)
  rw [h]
  have htok : pySplitWs "un deux trois quatre" =
      ["un", "deux", "trois", "quatre"] := by decide
  have hD : (List.map (fun s => s.stop - s.start) e2Segs).sum = 3000 := by
    decide
  unfold specProportionalAlign
  rw [htok, hD]
  show specPropGo ["un", "deux", "trois", "quatre"] 3000 4 e2Segs 0 = _
  unfold e2Segs
  unfold specPropGo
  rw [e2_claimNumWords_A]
  unfold specPropGo
  rw [e2_claimNumWords_B]
  decide

/-- CLAIM C4 counterexample.  A zero-duration segment does not always
yield empty text: with a word spanning 0–10 s (0–10000 ms) and a
zero-duration segment at 5 ms, the word strictly straddles the segment's
instant (`word.start < seg.end` and `word.end > seg.start` both hold), so
the emitted utterance's text is `"hi"`, not `""`. -/
theorem C4_counterexample :
    alignTextWithDiarization "" [⟨"hi", 0, 10⟩] [⟨"A", 5, 5, 1⟩] =
      [⟨"A", 5, 5, "hi", 1⟩] ∧ ("hi" : String) ≠ "" := by
  refine ⟨?_, by decide⟩
  have hwms : wordToMs ⟨"hi", 0, 10⟩ = ⟨"hi", 0, 10000⟩ := by
    unfold wordToMs
    have h1 : pyInt ((0 : ℚ) * 1000) = 0 := by
      rw [show ((0:ℚ) * 1000) = 0 by norm_num]
      rw [pyInt_of_nonneg le_rfl]
      exact Int.floor_zero
    have h2 : pyInt ((10 : ℚ) * 1000) = 10000 := by
      rw [show ((10:ℚ) * 1000) = 10000 by norm_num]
      rw [pyInt_of_nonneg (by norm_num)]
      norm_num
    rw [h1, h2]
  unfold alignTextWithDiarization
  rw [if_neg (by simp)]
  rw [if_pos (by simp)]
  show alignPrecise (List.map wordToMs [⟨"hi", 0, 10⟩])
      (sortByStart [⟨"A", 5, 5, 1⟩]) = _
  rw [show sortByStart [(⟨"A", 5, 5, 1⟩ : SpeakerSegment)] =
    [⟨"A", 5, 5, 1⟩] from rfl]
  rw [List.map_cons, List.map_nil, hwms]
  decide

/-- CLAIM C4 (corrected).  In the precise path (word list non-empty,
segments sorted by start), each segment `s` yields exactly one utterance
carrying `s.speaker`, `s.start`, `s.end`, `s.confidence`, and as text the
single-space concatenation (trimmed) of the texts of exactly those
converted words `w` with `w.start < s.end ∧ w.end > s.start`; hence a
word straddling several segments appears in every utterance it overlaps,
and a zero-duration segment at instant `t` carries exactly the words with
`w.start < t < w.end` — empty text only when no word strictly contains
`t` (the claim's unconditional "zero-duration segments yield empty text"
is false). -/
theorem C4_amended (text : String) (words : List SttWord)
    (segs : List SpeakerSegment) (hw : words ≠ [])
    (hsorted : SortedByStart segs = true) :
    (alignTextWithDiarization text words segs =
      segs.map (fun seg =>
        { speaker := seg.speaker, start := seg.start, stop := seg.stop,
          text := pyStrip (pyJoinSpace (((words.map wordToMs).filter
            (fun w => decide (w.start < seg.stop) &&
              decide (w.stop > seg.start))).map AWord.text)),
          confidence := seg.confidence }))
    ∧ ∀ seg ∈ segs, seg.stop = seg.start →
        ((words.map wordToMs).filter
          (fun w => decide (w.start < seg.stop) &&
            decide (w.stop > seg.start))) =
        ((words.map wordToMs).filter
          (fun w => decide (w.start < seg.start) &&
            decide (seg.start < w.stop))) := by
  constructor
  · cases segs with
    | nil => simp [alignTextWithDiarization]
    | cons a as =>
      unfold alignTextWithDiarization
      rw [if_neg (by simp)]
      rw [if_pos hw]
      rw [sortByStart_of_sorted hsorted]
      rfl
  · intro seg _ hzero
    apply List.filter_congr
    intro w _
    rw [hzero]

/-- Witness for `C4_amended` at scenario E1: words `"Bonjour,"` (0–472 ms)
and `"bienvenue"` (472–944 ms), one diarization segment `(A, 0, 25040)`;
the utterance is `(A, 0, 25040, "Bonjour, bienvenue", 1.0)`. -/
theorem C4_amended_witness :
    alignTextWithDiarization "Bonjour, bienvenue"
        [⟨"Bonjour,", 0, 472/1000⟩, ⟨"bienvenue", 472/1000, 944/1000⟩]
        [⟨"A", 0, 25040, 1⟩] =
      [⟨"A", 0, 25040, "Bonjour, bienvenue", 1⟩] := by
  have h := (C4_amended "Bonjour, bienvenue"
    [⟨"Bonjour,", 0, 472/1000⟩, ⟨"bienvenue", 472/1000, 944/1000⟩]
    [⟨"A", 0, 25040, 1⟩] (by simp) (by decide)).1
  rw [h]
  have hw1 : wordToMs ⟨"Bonjour,", 0, 472/1000⟩ = ⟨"Bonjour,", 0, 472⟩ := by
    unfold wordToMs
    have h1 : pyInt ((0 : ℚ) * 1000) = 0 := by
      rw [show ((0:ℚ) * 1000) = 0 by norm_num, pyInt_of_nonneg le_rfl]
      exact Int.floor_zero
    have h2 : pyInt ((472/1000 : ℚ) * 1000) = 472 := by
      rw [show ((472/1000:ℚ) * 1000) = 472 by norm_num]
      rw [pyInt_of_nonneg (by norm_num)]
      norm_num
    rw [h1, h2]
  have hw2 : wordToMs ⟨"bienvenue", 472/1000, 944/1000⟩ =
      ⟨"bienvenue", 472, 944⟩ := by
    unfold wordToMs
    have h1 : pyInt ((472/1000 : ℚ) * 1000) = 472 := by
      rw [show ((472/1000:ℚ) * 1000) = 472 by norm_num]
      rw [pyInt_of_nonneg (by norm_num)]
      norm_num
    have h2 : pyInt ((944/1000 : ℚ) * 1000) = 944 := by
      rw [show ((944/1000:ℚ) * 1000) = 944 by norm_num]
      rw [pyInt_of_nonneg (by norm_num)]
      norm_num
    rw [h1, h2]
  simp only [List.map_cons, List.map_nil, hw1, hw2]
  decide

/-! ## Ingestion endpoints (C5)

`create_transcription` (`src/api/routers/stt.py`) and `create_diarization`
(`src/api/routers/diarization.py`): exactly one of a multipart upload or
an `audio_url` must be given; uploads are format- and size-checked and
stored under a generated key; the job row is created; **the worker task
is enqueued only under `if audio_storage_key:`**, i.e. only for uploads;
the response always reports `status=queued`.

Modelled from the spec: `JobRepository.create` inserts the row with
status `pending`, and `set_celery_task_id` records the queue handle and
transitions the row to `queued` (§4.3; src/db/repositories is not under
src/). -/

/-- The public status enum of `src/models/stt.py` (`TranscriptionStatus`):
AssemblyAI uses `error` instead of `failed`, and there is no `pending`. -/
inductive TranscriptionStatus where
  | queued | processing | completed | error
deriving DecidableEq, Repr

/-- A multipart upload: filename and byte size. -/
structure UploadFile where
  filename : String
  size : Nat
deriving DecidableEq, Repr

/-- An API-level failure, identified by its error code. -/
structure ApiError where
  code : String
deriving DecidableEq, Repr

/-- `PurePath.suffix` (CPython): the part of the name from the last dot,
provided that dot is neither the first nor the last character. -/
def pathSuffix (name : List Char) : List Char :=
  match (name.reverse.takeWhile (· ≠ '.')).length with
  | tailLen =>
    if '.' ∈ name ∧ 0 < name.length - 1 - tailLen ∧ tailLen ≠ 0 then
      name.drop (name.length - 1 - tailLen)
    else []

def SUPPORTED_FORMATS : List String :=
  ["wav", "mp3", "m4a", "flac", "ogg", "webm"]

/-- `validate_audio_format`: lower-cased, dot-stripped filename suffix,
checked against the supported formats. -/
def validate_audio_format (filename : String) : Except ApiError String :=
  let ext := String.mk (((pathSuffix filename.data).map Char.toLower).dropWhile
    (· = '.'))
  if SUPPORTED_FORMATS.contains ext then .ok ext
  else .error ⟨"invalid_audio_format"⟩

/-- Whether `audio_url` passes `startswith("http://") or startswith("https://")`. -/
def validUrl (url : String) : Bool :=
  "http://".data.isPrefixOf url.data || "https://".data.isPrefixOf url.data

/-- What an ingestion handler did: whether a worker task was enqueued and
its queue handle recorded on the job row, the stored job status when the
handler returns, and the status reported to the client. -/
structure IngestResult where
  taskEnqueued : Bool
  queueHandleRecorded : Bool
  jobStatus : JobStatus
  respStatus : TranscriptionStatus
deriving DecidableEq, Repr

/-- `create_transcription`: validations, then job + transcription row;
the task is enqueued and the handle recorded only when
`audio_storage_key` is set, which happens only for uploads; the response
is always `status=queued`. -/
def create_transcription (audio : Option UploadFile)
    (audio_url : Option String) (max_size : Nat) :
    Except ApiError IngestResult :=
  if audio = none ∧ audio_url = none then
    .error ⟨"missing_audio_source"⟩
  else if audio_url.any (fun u => ! validUrl u) then
    .error ⟨"invalid_url_format"⟩
  else
    match audio with
    | some f =>
      match validate_audio_format f.filename with
      | .error e => .error e
      | .ok _ =>
        if max_size < f.size then .error ⟨"file_too_large"⟩
        else
          .ok { taskEnqueued := true, queueHandleRecorded := true,
                jobStatus := .queued, respStatus := .queued }
    | none =>
      .ok { taskEnqueued := false, queueHandleRecorded := false,
            jobStatus := .pending, respStatus := .queued }

/-- `create_diarization`: identical control flow around the enqueue
(`if audio_storage_key:`), with diarization parameters instead. -/
def create_diarization (audio : Option UploadFile)
    (audio_url : Option String) (max_size : Nat) :
    Except ApiError IngestResult :=
  if audio = none ∧ audio_url = none then
    .error ⟨"missing_audio_source"⟩
  else if audio_url.any (fun u => ! validUrl u) then
    .error ⟨"invalid_url_format"⟩
  else
    match audio with
    | some f =>
      match validate_audio_format f.filename with
      | .error e => .error e
      | .ok _ =>
        if max_size < f.size then .error ⟨"file_too_large"⟩
        else
          .ok { taskEnqueued := true, queueHandleRecorded := true,
                jobStatus := .queued, respStatus := .queued }
    | none =>
      .ok { taskEnqueued := false, queueHandleRecorded := false,
            jobStatus := .pending, respStatus := .queued }

/-- CLAIM C5 (code bug).  An accepted `audio_url`-only request is
answered with `status=queued`, but no task is enqueued, no queue handle
is recorded, and the job stays `pending` forever (the dedicated
`process_transcription_url` worker task exists but is never dispatched);
an upload request does enqueue and record the handle.  This contradicts
the claim for the `audio_url` arm. -/
theorem C5_url_no_enqueue :
    create_transcription none (some "https://example.com/a.wav") 100 =
      .ok { taskEnqueued := false, queueHandleRecorded := false,
            jobStatus := .pending, respStatus := .queued }
    ∧ create_diarization none (some "https://example.com/a.wav") 100 =
      .ok { taskEnqueued := false, queueHandleRecorded := false,
            jobStatus := .pending, respStatus := .queued }
    ∧ create_transcription (some ⟨"a.wav", 10⟩) none 100 =
      .ok { taskEnqueued := true, queueHandleRecorded := true,
            jobStatus := .queued, respStatus := .queued } := by
  refine ⟨?_, ?_, ?_⟩ <;>
    simp [create_transcription, create_diarization, validUrl,
      validate_audio_format, pathSuffix, SUPPORTED_FORMATS]

/-! ## Webhook dispatch (C6)

`src/workers/tasks/webhooks.py`: `send_webhook` is a Celery task with
`max_retries=5, default_retry_delay=30`; it POSTs the payload with a 30 s
timeout and `raise_for_status()` (which raises only on 4xx/5xx), and
re-raises on `HTTPStatusError`/`RequestError`.
`_send_pending_webhooks_async` fetches jobs with terminal status and
unsent webhooks (batch 50), skips jobs without a `webhook_url`, enqueues
`send_webhook.delay(...)` for the rest and **immediately** calls
`job_repo.mark_webhook_sent(job.id)` — before any HTTP attempt.

Modelled from the spec: Celery's retry dispatch (re-execute up to
`max_retries` times with the declared delay; `src/workers/celery_app.py`
is not under src/) and `JobRepository.mark_webhook_sent` setting the
job's webhook-sent flag. -/

/-- A job row as seen by the webhook sweeper. -/
structure PendingJob where
  id : String
  status : String
  webhook_url : Option String
deriving DecidableEq, Repr

/-- Whether one HTTP POST attempt satisfies `raise_for_status()`:
`some code` is the response status, `none` a network error. -/
def webhookAttemptOk : Option Nat → Bool
  | some code => code < 400
  | none => false

/-- The `send_webhook` task across its Celery retries: each execution
POSTs once; an exception consumes one retry; `retriesLeft` starts at the
declared `max_retries = 5`.  Returns whether any execution succeeded. -/
def send_webhook_runs : List (Option Nat) → Nat → Bool
  | [], _ => false
  | a :: rest, retriesLeft =>
    if webhookAttemptOk a then true
    else
      match retriesLeft with
      | 0 => false
      | r + 1 => send_webhook_runs rest r

/-- One sweep of `_send_pending_webhooks_async` over its batch, given the
eventual HTTP outcomes of each job's delivery task: per job, the
webhook-sent mark written by the sweeper and whether the delivery task
ever got a passing response. -/
def sendPendingWebhooks (jobs : List PendingJob)
    (outcomes : String → List (Option Nat)) :
    List (String × Bool × Bool) :=
  jobs.map fun j =>
    match j.webhook_url with
    | none => (j.id, false, false)
    | some _ => (j.id, true, send_webhook_runs (outcomes j.id) 5)

/-- CLAIM C6 counterexample.  A completed job with a webhook URL whose
receiver answers 503 on all six delivery attempts is nevertheless marked
webhook-sent by the sweeper (the mark is written right after enqueueing
the task, before any POST), while the delivery itself never succeeds. -/
theorem C6_counterexample :
    sendPendingWebhooks
        [⟨"j1", "completed", some "https://cb.example.com/hook"⟩]
        (fun _ => List.replicate 6 (some 503)) = [("j1", true, false)] := by
  decide

theorem send_webhook_runs_iff : ∀ (attempts : List (Option Nat)) (r : Nat),
    send_webhook_runs attempts r = true ↔
      ∃ a ∈ attempts.take (r + 1), webhookAttemptOk a = true := by
  intro attempts
  induction attempts with
  | nil => intro r; simp [send_webhook_runs]
  | cons a rest ih =>
    intro r
    by_cases hok : webhookAttemptOk a = true
    · simp [send_webhook_runs, hok]
    · cases r with
      | zero =>
        simp [send_webhook_runs, hok]
      | succ r' =>
        rw [List.take_succ_cons]
        simp only [send_webhook_runs, if_neg hok]
        rw [ih r']
        constructor
        · intro ⟨x, hx, hxok⟩
          exact ⟨x, by simp [hx], hxok⟩
        · intro ⟨x, hx, hxok⟩
          rcases List.mem_cons.mp hx with hxa | hxm
          · exact absurd (hxa ▸ hxok) hok
          · exact ⟨x, hxm, hxok⟩

/-- CLAIM C6 (corrected).  The sweeper marks a job's webhook as sent iff
the job has a `webhook_url`, regardless of any delivery outcome (the mark
is written at enqueue time, before the POST); independently, the delivery
task succeeds iff one of its first `1 + 5` executions receives a response
that passes `raise_for_status()` (status < 400 — 3xx also passes), the
failing ones each consuming one of the 5 retries (fixed 30 s delay).  The
mark is never conditioned on a 2xx response. -/
theorem C6_amended (jobs : List PendingJob)
    (outcomes : String → List (Option Nat)) :
    (sendPendingWebhooks jobs outcomes = jobs.map (fun j =>
      (j.id, j.webhook_url.isSome,
        j.webhook_url.isSome && send_webhook_runs (outcomes j.id) 5))) ∧
    (∀ attempts : List (Option Nat),
      send_webhook_runs attempts 5 = true ↔
        ∃ a ∈ attempts.take 6, webhookAttemptOk a = true) := by
  constructor
  · unfold sendPendingWebhooks
    apply List.map_congr_left
    intro j _
    cases hurl : j.webhook_url with
    | none => simp [hurl]
    | some u => simp [hurl]
  · intro attempts
    exact send_webhook_runs_iff attempts 5

/-! ## Ownership hiding on GET/DELETE (C7)

`get_job` / `cancel_job` (`src/api/routers/jobs.py`),
`get_transcription` / `delete_transcription` (`src/api/routers/stt.py`):
after the UUID parse, a missing record raises `JobNotFoundError(job_id)`
(resp. `TranscriptionNotFoundError(transcription_id)`), and a record
owned by a different `user_id` raises the **same** exception with the
**same** argument.

Modelled from the spec: the bodies of `JobNotFoundError` /
`TranscriptionNotFoundError` (src/core/exceptions.py is not under src/)
are fixed functions of the requested id producing the §6 error body; E3
gives `code="job_not_found"`. -/

/-- The §6 error body. -/
structure ErrorBody where
  message : String
  etype : String
  param : Option String
  code : Option String
deriving DecidableEq, Repr

def jobNotFoundBody (job_id : String) : ErrorBody :=
  ⟨"Job not found: " ++ job_id, "invalid_request_error", none,
    some "job_not_found"⟩

def transcriptionNotFoundBody (transcription_id : String) : ErrorBody :=
  ⟨"Transcription not found: " ++ transcription_id, "invalid_request_error",
    none, some "transcription_not_found"⟩

/-- A job row as the handlers see it. -/
structure JobRow where
  id : String
  user_id : String
  status : String
  celery_task_id : Option String
deriving DecidableEq, Repr

/-- A transcription row as the handlers see it. -/
structure TransRow where
  id : String
  user_id : String
  audio_storage_key : Option String
deriving DecidableEq, Repr

/-- `GET /v1/jobs/{id}` after the UUID parse: `found` is the repository
lookup result. -/
def get_job (found : Option JobRow) (caller job_id : String) :
    Except ErrorBody JobRow :=
  match found with
  | none => .error (jobNotFoundBody job_id)
  | some job =>
    if job.user_id ≠ caller then .error (jobNotFoundBody job_id)
    else .ok job

/-- `DELETE /v1/jobs/{id}` (cancel) after the UUID parse. -/
def cancel_job (found : Option JobRow) (caller job_id : String) :
    Except ErrorBody Unit :=
  match found with
  | none => .error (jobNotFoundBody job_id)
  | some job =>
    if job.user_id ≠ caller then .error (jobNotFoundBody job_id)
    else if ¬ (job.status = "pending" ∨ job.status = "queued") then
      .error ⟨"Cannot cancel job with status '" ++ job.status ++
        "'. Only pending or queued jobs can be cancelled.",
        "invalid_request_error", some "job_id", some "job_not_cancellable"⟩
    else .ok ()

/-- `GET /v1/transcriptions/{id}` ownership gate. -/
def get_transcription_row (found : Option TransRow) (caller tid : String) :
    Except ErrorBody TransRow :=
  match found with
  | none => .error (transcriptionNotFoundBody tid)
  | some t =>
    if t.user_id ≠ caller then .error (transcriptionNotFoundBody tid)
    else .ok t

/-- `DELETE /v1/transcriptions/{id}` ownership gate. -/
def delete_transcription (found : Option TransRow) (caller tid : String) :
    Except ErrorBody Unit :=
  match found with
  | none => .error (transcriptionNotFoundBody tid)
  | some t =>
    if t.user_id ≠ caller then .error (transcriptionNotFoundBody tid)
    else .ok ()

/-- CLAIM C7.  For every job/transcription row owned by a principal other
than the caller, GET and DELETE return exactly the response produced for
a nonexistent id: both branches raise the same not-found error applied to
the same requested id, so existence is not leaked to non-owners. -/
theorem C7_not_found_indistinguishable (job : JobRow) (t : TransRow)
    (caller rid : String) (hj : job.user_id ≠ caller)
    (ht : t.user_id ≠ caller) :
    get_job (some job) caller rid = get_job none caller rid ∧
    cancel_job (some job) caller rid = cancel_job none caller rid ∧
    get_transcription_row (some t) caller rid =
      get_transcription_row none caller rid ∧
    delete_transcription (some t) caller rid =
      delete_transcription none caller rid := by
  refine ⟨?_, ?_, ?_, ?_⟩ <;>
    simp [get_job, cancel_job, get_transcription_row, delete_transcription,
      hj, ht]

/-- Witness for `C7_not_found_indistinguishable`: principal `p2` requests
a job and a transcription owned by `p1`. -/
theorem C7_witness :
    get_job (some ⟨"11111111", "p1", "queued", none⟩) "p2" "11111111" =
      get_job none "p2" "11111111" :=
  (C7_not_found_indistinguishable ⟨"11111111", "p1", "queued", none⟩
    ⟨"22222222", "p1", none⟩ "p2" "11111111" (by decide) (by decide)).1

/-! ## API-key length validation (C8)

`validate_api_key` in `src/core/auth.py`: the bearer value is extracted
from the Authorization header (`Bearer <key>` — case-insensitive scheme —
or the bare key), must start with the configured prefix
(`settings.key_pfx`, `lx_` per the source's own documentation),
and must satisfy `len(api_key) >= 20` — the length of the **whole** key,
prefix included, not of the part after the prefix. -/

/-- `APIKeyManager.extract_key_from_header`: `authorization.split()`
(whitespace split), accepting `[key]` or `["bearer", key]`. -/
def extract_key_from_header (authorization : Option String) :
    Except ApiError String :=
  match authorization with
  | none => .error ⟨"missing_authorization"⟩
  | some a =>
    match pySplitWs a with
    | [p] => .ok p
    | [p1, p2] =>
      if String.mk (p1.data.map Char.toLower) = "bearer" then .ok p2
      else .error ⟨"auth_malformed"⟩
    | _ => .error ⟨"auth_malformed"⟩

/-- `validate_api_key` (format-level validation): prefix check, then
minimum total length 20. -/
def validate_api_key (key_pfx : String)
    (authorization : Option String) : Except ApiError String :=
  match extract_key_from_header authorization with
  | .error e => .error e
  | .ok api_key =>
    if ¬ (key_pfx.data.isPrefixOf api_key.data) then
      .error ⟨"invalid_api_key"⟩
    else if api_key.length < 20 then .error ⟨"invalid_api_key"⟩
    else .ok api_key

/-- CLAIM C8 counterexample.  With the `lx_` prefix (3 characters), a
bearer token of total length `prefix_len + 19 = 22` is **accepted** —
the code requires 20 characters of total length, not 20 after the prefix
— refuting the claimed rejection at `prefix_len + 19`. -/
theorem C8_counterexample :
    ("lx_abcdefghijklmnopqrs".length = "lx_".length + 19) ∧
    validate_api_key "lx_" (some "lx_abcdefghijklmnopqrs") =
      .ok "lx_abcdefghijklmnopqrs" := by
  exact ⟨by decide, by rfl⟩

theorem pyWordsAux_no_ws : ∀ (l acc : List Char),
    (∀ c ∈ l, ¬ c.isWhitespace) → (l ≠ [] ∨ acc ≠ []) →
    pyWordsAux l acc = [acc.reverse ++ l] := by
  intro l
  induction l with
  | nil =>
    intro acc _ hne
    rcases hne with h | h
    · exact absurd rfl h
    · simp [pyWordsAux, h]
  | cons c cs ih =>
    intro acc hl _
    have hc : ¬ c.isWhitespace := hl c (by simp)
    simp only [pyWordsAux, if_neg hc]
    rw [ih (c :: acc) (fun d hd => hl d (by simp [hd])) (Or.inr (by simp))]
    simp

theorem pySplitWs_single (tok : String) (h1 : tok ≠ "")
    (h2 : ∀ c ∈ tok.data, ¬ c.isWhitespace) : pySplitWs tok = [tok] := by
  unfold pySplitWs
  rw [pyWordsAux_no_ws tok.data [] h2
    (Or.inl (fun h => h1 (string_data_eq_nil h)))]
  simp [string_mk_data]

/-- CLAIM C8 (corrected).  Token-length validation enforces a minimum of
20 characters of **total** key length, prefix included: a whitespace-free
bearer token is accepted iff it starts with the configured prefix `lx_`
and has at least 20 characters in total; in particular a token of total
length 19 (16 after the prefix) is rejected and one of total length 20
(17 after the prefix) is accepted, while `prefix_len + 19` and
`prefix_len + 20` (22 resp. 23 characters) are both accepted. -/
theorem C8_amended (tok : String) (h1 : tok ≠ "")
    (h2 : ∀ c ∈ tok.data, ¬ c.isWhitespace) :
    (validate_api_key "lx_" (some tok) = .ok tok ↔
      ("lx_".data.isPrefixOf tok.data ∧ 20 ≤ tok.length)) ∧
    validate_api_key "lx_" (some "lx_0123456789abcdef") =
      .error ⟨"invalid_api_key"⟩ ∧
    validate_api_key "lx_" (some "lx_0123456789abcdefg") =
      .ok "lx_0123456789abcdefg" := by
  refine ⟨?_, by rfl, by rfl⟩
  have hextract : extract_key_from_header (some tok) = .ok tok := by
    simp only [extract_key_from_header]
    rw [pySplitWs_single tok h1 h2]
  have hval : validate_api_key "lx_" (some tok) =
      (if ¬ ("lx_".data.isPrefixOf tok.data) then
        (.error ⟨"invalid_api_key"⟩ : Except ApiError String)
      else if tok.length < 20 then .error ⟨"invalid_api_key"⟩
      else .ok tok) := by
    unfold validate_api_key
    rw [hextract]
  rw [hval]
  constructor
  · intro h
    by_cases hp : "lx_".data.isPrefixOf tok.data
    · rw [if_neg (by simp [hp])] at h
      by_cases hlen : tok.length < 20
      · rw [if_pos hlen] at h
        exact absurd h (by simp)
      · exact ⟨hp, by omega⟩
    · rw [if_pos (by simp [hp])] at h
      exact absurd h (by simp)
  · intro ⟨hp, hlen⟩
    rw [if_neg (by simp [hp]), if_neg (by omega)]

/-- Witness for `C8_amended` at the 20-character boundary token. -/
theorem C8_amended_witness :
    validate_api_key "lx_" (some "lx_0123456789abcdefg") =
      .ok "lx_0123456789abcdefg" :=
  ((C8_amended "lx_0123456789abcdefg" (by decide) (by decide)).1).mpr
    (by decide)

/-! ## Speaker statistics (C9)

`compute_speaker_stats` in `src/services/diarization/base.py`: segments
are grouped per speaker label (a Python dict, so labels appear in first
insertion order); per label the total duration, segment count, truncated
average `int(total / len)` and `round(total / total_all * 100, 2)` are
produced; when the grand total is zero the percentage is 0. -/

/-- Fuel-driven worker for `firstApp` (structural recursion so that the
kernel can evaluate it). -/
def firstAppGo : Nat → List String → List String
  | 0, _ => []
  | _, [] => []
  | fuel + 1, x :: xs => x :: firstAppGo fuel (xs.filter (fun y => ! (y == x)))

/-- Labels in first-appearance order (Python dict insertion order). -/
def firstApp (l : List String) : List String := firstAppGo l.length l

theorem firstAppGo_congr : ∀ (n m : Nat) (l : List String),
    l.length ≤ n → l.length ≤ m → firstAppGo n l = firstAppGo m l := by
  intro n
  induction n with
  | zero =>
    intro m l hn _
    have : l = [] := List.eq_nil_of_length_eq_zero (by omega)
    subst this
    cases m <;> rfl
  | succ n ih =>
    intro m l hn hm
    cases l with
    | nil => cases m <;> rfl
    | cons x xs =>
      cases m with
      | zero => simp at hm
      | succ m =>
        show x :: firstAppGo n (xs.filter (fun y => ! (y == x)))
            = x :: firstAppGo m (xs.filter (fun y => ! (y == x)))
        have hlen := List.length_filter_le (fun y => ! (y == x)) xs
        simp only [List.length_cons] at hn hm
        rw [ih m (xs.filter (fun y => ! (y == x))) (by omega) (by omega)]

theorem firstApp_cons (x : String) (xs : List String) :
    firstApp (x :: xs) = x :: firstApp (xs.filter (fun y => ! (y == x))) := by
  show x :: firstAppGo xs.length (xs.filter (fun y => ! (y == x)))
      = x :: firstAppGo (xs.filter (fun y => ! (y == x))).length
        (xs.filter (fun y => ! (y == x)))
  rw [firstAppGo_congr xs.length (xs.filter (fun y => ! (y == x))).length
    (xs.filter (fun y => ! (y == x))) (List.length_filter_le _ _) le_rfl]

/-- Per-speaker statistics (AssemblyAI `Speaker`, fields used by the
stats computation; `label` stays `None` and is omitted). -/
structure Speaker where
  id : String
  total_duration : Int
  num_segments : Nat
  avg_segment_duration : Int
  percentage : ℚ
deriving DecidableEq, Repr

/-- `compute_speaker_stats`, values of the returned dict in insertion
order. -/
def compute_speaker_stats (segments : List SpeakerSegment) : List Speaker :=
  let total_all := (segments.map (fun s => s.stop - s.start)).sum
  (firstApp (segments.map SpeakerSegment.speaker)).map fun id =>
    let group := segments.filter (fun s => s.speaker == id)
    let total_duration := (group.map (fun s => s.stop - s.start)).sum
    { id := id,
      total_duration := total_duration,
      num_segments := group.length,
      avg_segment_duration :=
        pyInt ((total_duration : ℚ) / (group.length : ℚ)),
      percentage :=
        if 0 < total_all then
          round2 ((total_duration : ℚ) / (total_all : ℚ) * 100)
        else 0 }

theorem round2_err (q : ℚ) : |round2 q - q| ≤ 1 / 200 := by
  unfold round2
  dsimp only
  set x := 100 * q with hx
  have hfr0 : (0:ℚ) ≤ x - ⌊x⌋ := by
    have := Int.floor_le x
    linarith
  have hfr1 : x - ⌊x⌋ < 1 := by
    have := Int.lt_floor_add_one x
    linarith
  by_cases h1 : x - ⌊x⌋ < 1/2
  · rw [if_pos h1]
    have : |(⌊x⌋ : ℚ) / 100 - q| = |(⌊x⌋ : ℚ) - x| / 100 := by
      rw [← abs_of_pos (show (0:ℚ) < 100 by norm_num), ← abs_div]
      congr 1
      field_simp
    rw [this]
    have : |(⌊x⌋ : ℚ) - x| ≤ 1/2 := by
      rw [abs_sub_comm, abs_of_nonneg hfr0]
      linarith
    linarith
  · by_cases h2 : 1/2 < x - ⌊x⌋
    · rw [if_neg h1, if_pos h2]
      have : |((⌊x⌋ + 1 : Int) : ℚ) / 100 - q| =
          |((⌊x⌋ + 1 : Int) : ℚ) - x| / 100 := by
        rw [← abs_of_pos (show (0:ℚ) < 100 by norm_num), ← abs_div]
        congr 1
        field_simp
      rw [this]
      have : |((⌊x⌋ + 1 : Int) : ℚ) - x| ≤ 1/2 := by
        push_cast
        rw [abs_of_nonneg (by linarith)]
        linarith
      linarith
    · rw [if_neg h1, if_neg h2]
      have heq : x - ⌊x⌋ = 1/2 := by linarith
      by_cases h3 : Even ⌊x⌋
      · rw [if_pos h3]
        have : |(⌊x⌋ : ℚ) / 100 - q| = |(⌊x⌋ : ℚ) - x| / 100 := by
          rw [← abs_of_pos (show (0:ℚ) < 100 by norm_num), ← abs_div]
          congr 1
          field_simp
        rw [this]
        rw [abs_sub_comm, abs_of_nonneg hfr0, heq]
        norm_num
      · rw [if_neg h3]
        have : |((⌊x⌋ + 1 : Int) : ℚ) / 100 - q| =
            |((⌊x⌋ + 1 : Int) : ℚ) - x| / 100 := by
          rw [← abs_of_pos (show (0:ℚ) < 100 by norm_num), ← abs_div]
          congr 1
          field_simp
        rw [this]
        push_cast
        rw [abs_of_nonneg (by linarith)]
        linarith

theorem firstApp_subset : ∀ (l : List String), ∀ y ∈ firstApp l, y ∈ l
  | [] => by simp [firstApp, firstAppGo]
  | x :: xs => by
    intro y hy
    rw [firstApp_cons] at hy
    rcases List.mem_cons.mp hy with h | h
    · simp [h]
    · have h1 := firstApp_subset (xs.filter (fun y => ! (y == x))) y h
      have h2 := List.mem_of_mem_filter h1
      simp [h2]
termination_by l => l.length
decreasing_by
  simp only [List.length_cons]
  exact Nat.lt_succ_of_le (List.length_filter_le _ _)

theorem mem_firstApp : ∀ (l : List String), ∀ y ∈ l, y ∈ firstApp l
  | [] => by simp [firstApp, firstAppGo]
  | x :: xs => by
    intro y hy
    rw [firstApp_cons]
    by_cases hyx : y = x
    · simp [hyx]
    · rcases List.mem_cons.mp hy with h | h
      · exact absurd h hyx
      · refine List.mem_cons.mpr (Or.inr ?_)
        refine mem_firstApp (xs.filter (fun y => ! (y == x))) y ?_
        rw [List.mem_filter]
        exact ⟨h, by simpa using hyx⟩
termination_by l => l.length
decreasing_by
  simp only [List.length_cons]
  exact Nat.lt_succ_of_le (List.length_filter_le _ _)

theorem list_sum_filter_split (f : SpeakerSegment → Int)
    (p : SpeakerSegment → Bool) (segs : List SpeakerSegment) :
    ((segs.filter p).map f).sum +
      ((segs.filter (fun s => ! p s)).map f).sum = (segs.map f).sum := by
  induction segs with
  | nil => simp
  | cons a as ih =>
    by_cases hp : p a
    · simp only [List.filter_cons, hp, Bool.not_true, if_pos, List.map_cons,
        List.sum_cons, if_neg (by simp : ¬ (false = true))]
      omega
    · have hp' : p a = false := by simpa using hp
      simp only [List.filter_cons, hp', Bool.not_false, List.map_cons,
        List.sum_cons, if_pos, if_neg (by simp : ¬ (false = true))]
      omega

theorem firstApp_partition_sum (f : SpeakerSegment → Int) :
    ∀ (labels : List String) (segs : List SpeakerSegment),
      (∀ s ∈ segs, s.speaker ∈ labels) →
      ((firstApp labels).map
        (fun id => ((segs.filter (fun s => s.speaker == id)).map f).sum)).sum
        = (segs.map f).sum
  | [], segs, h => by
    cases segs with
    | nil => simp [firstApp]
    | cons a as => exact absurd (h a (by simp)) (by simp)
  | x :: xs, segs, h => by
    rw [firstApp_cons, List.map_cons, List.sum_cons]
    have hmapeq : (firstApp (xs.filter (fun y => ! (y == x)))).map
          (fun id => ((segs.filter (fun s => s.speaker == id)).map f).sum)
        = (firstApp (xs.filter (fun y => ! (y == x)))).map
          (fun id => (((segs.filter (fun s => ! (s.speaker == x))).filter
            (fun s => s.speaker == id)).map f).sum) := by
      apply List.map_congr_left
      intro id hid
      have hid1 := List.mem_of_mem_filter
        (firstApp_subset (xs.filter (fun y => ! (y == x))) id hid)
      have hidx : id ≠ x := by
        have := (List.mem_filter.mp
          (firstApp_subset (xs.filter (fun y => ! (y == x))) id hid)).2
        simpa using this
      congr 1
      congr 1
      rw [List.filter_filter]
      apply List.filter_congr
      intro s _
      by_cases hs : s.speaker = id
      · have h1 : (s.speaker == id) = true := by simpa using hs
        have h2 : (s.speaker == x) = false := by
          simp [hs]
          exact hidx
        simp [h1, h2]
      · have h1 : (s.speaker == id) = false := by simpa using hs
        simp [h1]
    rw [hmapeq]
    rw [firstApp_partition_sum f (xs.filter (fun y => ! (y == x)))
      (segs.filter (fun s => ! (s.speaker == x))) (by
        intro s hs
        have hs1 := List.mem_of_mem_filter hs
        have hs2 := (List.mem_filter.mp hs).2
        have hs3 := h s hs1
        rw [List.mem_filter]
        refine ⟨?_, hs2⟩
        rcases List.mem_cons.mp hs3 with hcase | hcase
        · exact absurd (by simpa using hcase) (by simpa using hs2)
        · exact hcase)]
    exact list_sum_filter_split f (fun s => s.speaker == x) segs
termination_by labels _ _ => labels.length
decreasing_by
  simp only [List.length_cons]
  exact Nat.lt_succ_of_le (List.length_filter_le _ _)

theorem list_sum_map_sub {α : Type} (l : List α) (f g : α → ℚ) :
    (l.map (fun x => f x - g x)).sum = (l.map f).sum - (l.map g).sum := by
  induction l with
  | nil => simp
  | cons a as ih =>
    simp [ih]
    ring

theorem abs_list_sum_le {α : Type} (l : List α) (h : α → ℚ) (c : ℚ)
    (hc : ∀ x ∈ l, |h x| ≤ c) : |(l.map h).sum| ≤ l.length * c := by
  induction l with
  | nil => simp
  | cons a as ih =>
    simp only [List.map_cons, List.sum_cons, List.length_cons]
    calc |h a + (as.map h).sum| ≤ |h a| + |(as.map h).sum| := abs_add _ _
      _ ≤ c + as.length * c := by
          have h1 := hc a (by simp)
          have h2 := ih (fun x hx => hc x (by simp [hx]))
          linarith
      _ = ((as.length + 1 : Nat) : ℚ) * c := by push_cast; ring

theorem list_sum_map_cast (l : List String) (g : String → Int) :
    (l.map (fun id => ((g id : Int) : ℚ))).sum = (((l.map g).sum : Int) : ℚ) := by
  induction l with
  | nil => simp
  | cons a as ih => simp [ih]

theorem list_sum_map_div_mul (l : List String) (g : String → ℚ) (t c : ℚ) :
    (l.map (fun id => g id / t * c)).sum = (l.map g).sum / t * c := by
  induction l with
  | nil => simp
  | cons a as ih =>
    simp [ih]
    ring

/-- CLAIM C9 (corrected).  For a segment list of positive total duration,
each produced `Speaker` carries `total_duration = Σ(end−start)` over its
segments, `num_segments` their count, `avg_segment_duration` the
**truncated** quotient `int(total / num)`, and `percentage` equal to
`total / Σ_all · 100` **rounded to 2 decimals**; the rounded percentages
sum to 100 within ±0.005 per speaker (`k/200` for `k` speakers) — not
within ±0.05 in general. -/
theorem C9_amended (segs : List SpeakerSegment)
    (hpos : 0 < (segs.map (fun s => s.stop - s.start)).sum) :
    (∀ sp ∈ compute_speaker_stats segs,
      sp.total_duration =
        ((segs.filter (fun s => s.speaker == sp.id)).map
          (fun s => s.stop - s.start)).sum ∧
      sp.num_segments = (segs.filter (fun s => s.speaker == sp.id)).length ∧
      sp.avg_segment_duration =
        pyInt ((sp.total_duration : ℚ) / (sp.num_segments : ℚ)) ∧
      sp.percentage = round2 ((sp.total_duration : ℚ) /
        (((segs.map (fun s => s.stop - s.start)).sum : Int) : ℚ) * 100)) ∧
    |((compute_speaker_stats segs).map Speaker.percentage).sum - 100| ≤
      ((compute_speaker_stats segs).length : ℚ) / 200 := by
  constructor
  · intro sp hsp
    unfold compute_speaker_stats at hsp
    rw [List.mem_map] at hsp
    obtain ⟨id, _, rfl⟩ := hsp
    refine ⟨rfl, rfl, rfl, ?_⟩
    show (if 0 < (segs.map (fun s => s.stop - s.start)).sum then _ else _) = _
    rw [if_pos hpos]
  · have hmap1 : (compute_speaker_stats segs).map Speaker.percentage =
        (firstApp (segs.map SpeakerSegment.speaker)).map (fun id => round2 (((((segs.filter (fun s => s.speaker == id)).map (fun s => s.stop - s.start)).sum : Int) : ℚ) / (((segs.map (fun s => s.stop - s.start)).sum : Int) : ℚ) * 100)) := by
      unfold compute_speaker_stats
      rw [List.map_map]
      apply List.map_congr_left
      intro id _
      show (if 0 < (segs.map (fun s => s.stop - s.start)).sum then _ else _) = _
      rw [if_pos hpos]
    have hlen : (compute_speaker_stats segs).length = (firstApp (segs.map SpeakerSegment.speaker)).length := by
      unfold compute_speaker_stats
      rw [List.length_map]
    have hsum_p : ((firstApp (segs.map SpeakerSegment.speaker)).map (fun id => ((((segs.filter (fun s => s.speaker == id)).map (fun s => s.stop - s.start)).sum : Int) : ℚ) / (((segs.map (fun s => s.stop - s.start)).sum : Int) : ℚ) * 100)).sum = 100 := by
      rw [list_sum_map_div_mul _ (fun id => ((((segs.filter (fun s => s.speaker == id)).map (fun s => s.stop - s.start)).sum : Int) : ℚ)) _ _]
      rw [list_sum_map_cast _ (fun id =>
        ((segs.filter (fun s => s.speaker == id)).map
          (fun s => s.stop - s.start)).sum)]
      rw [firstApp_partition_sum (fun s => s.stop - s.start)
        (segs.map SpeakerSegment.speaker) segs (by
          intro s hs
          exact List.mem_map.mpr ⟨s, hs, rfl⟩)]
      have hta_ne : (((segs.map (fun s => s.stop - s.start)).sum : Int) : ℚ) ≠ 0 := by
        rw [Int.cast_ne_zero]
        omega
      rw [div_self hta_ne, one_mul]
    rw [hmap1, hlen]
    have hsub : ((firstApp (segs.map SpeakerSegment.speaker)).map (fun id => round2 (((((segs.filter (fun s => s.speaker == id)).map (fun s => s.stop - s.start)).sum : Int) : ℚ) / (((segs.map (fun s => s.stop - s.start)).sum : Int) : ℚ) * 100))).sum - 100
        = ((firstApp (segs.map SpeakerSegment.speaker)).map (fun id => round2 (((((segs.filter (fun s => s.speaker == id)).map (fun s => s.stop - s.start)).sum : Int) : ℚ) / (((segs.map (fun s => s.stop - s.start)).sum : Int) : ℚ) * 100) - (((((segs.filter (fun s => s.speaker == id)).map (fun s => s.stop - s.start)).sum : Int) : ℚ) / (((segs.map (fun s => s.stop - s.start)).sum : Int) : ℚ) * 100))).sum := by
      rw [list_sum_map_sub]
      rw [hsum_p]
    rw [hsub]
    have hbound := abs_list_sum_le (firstApp (segs.map SpeakerSegment.speaker))
      (fun id => round2 (((((segs.filter (fun s => s.speaker == id)).map (fun s => s.stop - s.start)).sum : Int) : ℚ) / (((segs.map (fun s => s.stop - s.start)).sum : Int) : ℚ) * 100) - (((((segs.filter (fun s => s.speaker == id)).map (fun s => s.stop - s.start)).sum : Int) : ℚ) / (((segs.map (fun s => s.stop - s.start)).sum : Int) : ℚ) * 100))
      (1/200) (fun id _ => round2_err _)
    calc |((firstApp (segs.map SpeakerSegment.speaker)).map (fun id => round2 (((((segs.filter (fun s => s.speaker == id)).map (fun s => s.stop - s.start)).sum : Int) : ℚ) / (((segs.map (fun s => s.stop - s.start)).sum : Int) : ℚ) * 100) - (((((segs.filter (fun s => s.speaker == id)).map (fun s => s.stop - s.start)).sum : Int) : ℚ) / (((segs.map (fun s => s.stop - s.start)).sum : Int) : ℚ) * 100))).sum|
        ≤ ((firstApp (segs.map SpeakerSegment.speaker)).length : ℚ) * (1/200) := hbound
      _ = ((firstApp (segs.map SpeakerSegment.speaker)).length : ℚ) / 200 := by ring

/-- The percentage column of `compute_speaker_stats` when the grand total
is positive. -/
theorem stats_percentage_eq (segs : List SpeakerSegment)
    (hpos : 0 < (segs.map (fun s => s.stop - s.start)).sum) :
    (compute_speaker_stats segs).map Speaker.percentage =
      (firstApp (segs.map SpeakerSegment.speaker)).map (fun id =>
        round2 (((((segs.filter (fun s => s.speaker == id)).map
            (fun s => s.stop - s.start)).sum : Int) : ℚ) /
          (((segs.map (fun s => s.stop - s.start)).sum : Int) : ℚ) * 100)) := by
  unfold compute_speaker_stats
  rw [List.map_map]
  apply List.map_congr_left
  intro id _
  show (if 0 < (segs.map (fun s => s.stop - s.start)).sum then _ else _) = _
  rw [if_pos hpos]

/-- 13 speakers over 13 000 ms: `S1` speaks 12 868 ms in three segments
(4289, 4289 and 4290 ms), `S2`–`S13` 11 ms each. -/
def c9Segs : List SpeakerSegment :=
  [⟨"S1", 0, 4289, 1⟩, ⟨"S1", 4289, 8578, 1⟩, ⟨"S1", 8578, 12868, 1⟩,
   ⟨"S2", 0, 11, 1⟩,
   ⟨"S3", 0, 11, 1⟩,
   ⟨"S4", 0, 11, 1⟩,
   ⟨"S5", 0, 11, 1⟩,
   ⟨"S6", 0, 11, 1⟩,
   ⟨"S7", 0, 11, 1⟩,
   ⟨"S8", 0, 11, 1⟩,
   ⟨"S9", 0, 11, 1⟩,
   ⟨"S10", 0, 11, 1⟩,
   ⟨"S11", 0, 11, 1⟩,
   ⟨"S12", 0, 11, 1⟩,
   ⟨"S13", 0, 11, 1⟩]

/-- CLAIM C9 counterexample.  On `c9Segs` the stored (2-decimal-rounded)
percentages are 98.98 and twelve times 0.08, summing to 99.94 — off from
100 by 0.06 > 0.05 — and `S1`'s stored average segment duration is the
truncated 4289, not the exact 12868/3.  Both the claimed ±0.05 bound and
the exact-average formula fail. -/
theorem C9_counterexample :
    ((compute_speaker_stats c9Segs).map Speaker.percentage).sum = 9994 / 100 ∧
    ¬ (|((compute_speaker_stats c9Segs).map Speaker.percentage).sum - 100| ≤
        5 / 100) ∧
    ((compute_speaker_stats c9Segs).map Speaker.avg_segment_duration)[0]? =
      some 4289 ∧
    ¬ (((4289 : Int) : ℚ) = (12868 : ℚ) / 3) := by
  have hpos : 0 < (c9Segs.map (fun s => s.stop - s.start)).sum := by decide
  have hfa : firstApp (c9Segs.map SpeakerSegment.speaker) =
      ["S1", "S2", "S3", "S4", "S5", "S6", "S7", "S8", "S9", "S10", "S11", "S12", "S13"] := by decide
  have htd1 : ((c9Segs.filter (fun s => s.speaker == "S1")).map
      (fun s => s.stop - s.start)).sum = 12868 := by decide
  have htd2 : ((c9Segs.filter (fun s => s.speaker == "S2")).map
      (fun s => s.stop - s.start)).sum = 11 := by decide
  have htd3 : ((c9Segs.filter (fun s => s.speaker == "S3")).map
      (fun s => s.stop - s.start)).sum = 11 := by decide
  have htd4 : ((c9Segs.filter (fun s => s.speaker == "S4")).map
      (fun s => s.stop - s.start)).sum = 11 := by decide
  have htd5 : ((c9Segs.filter (fun s => s.speaker == "S5")).map
      (fun s => s.stop - s.start)).sum = 11 := by decide
  have htd6 : ((c9Segs.filter (fun s => s.speaker == "S6")).map
      (fun s => s.stop - s.start)).sum = 11 := by decide
  have htd7 : ((c9Segs.filter (fun s => s.speaker == "S7")).map
      (fun s => s.stop - s.start)).sum = 11 := by decide
  have htd8 : ((c9Segs.filter (fun s => s.speaker == "S8")).map
      (fun s => s.stop - s.start)).sum = 11 := by decide
  have htd9 : ((c9Segs.filter (fun s => s.speaker == "S9")).map
      (fun s => s.stop - s.start)).sum = 11 := by decide
  have htd10 : ((c9Segs.filter (fun s => s.speaker == "S10")).map
      (fun s => s.stop - s.start)).sum = 11 := by decide
  have htd11 : ((c9Segs.filter (fun s => s.speaker == "S11")).map
      (fun s => s.stop - s.start)).sum = 11 := by decide
  have htd12 : ((c9Segs.filter (fun s => s.speaker == "S12")).map
      (fun s => s.stop - s.start)).sum = 11 := by decide
  have htd13 : ((c9Segs.filter (fun s => s.speaker == "S13")).map
      (fun s => s.stop - s.start)).sum = 11 := by decide
  have hta : (c9Segs.map (fun s => s.stop - s.start)).sum = 13000 := by decide
  have hr1 : round2 (((12868 : Int) : ℚ) / ((13000 : Int) : ℚ) * 100) =
      9898 / 100 := by
    unfold round2
    dsimp only
    push_cast
    norm_num
  have hr2 : round2 (((11 : Int) : ℚ) / ((13000 : Int) : ℚ) * 100) =
      8 / 100 := by
    unfold round2
    dsimp only
    push_cast
    norm_num
  have hpct : (compute_speaker_stats c9Segs).map Speaker.percentage =
      9898 / 100 :: List.replicate 12 (8 / 100 : ℚ) := by
    rw [stats_percentage_eq c9Segs hpos, hfa]
    simp only [List.map_cons, List.map_nil]
    rw [htd1, htd2, htd3, htd4, htd5, htd6, htd7, htd8, htd9, htd10, htd11, htd12, htd13, hta, hr1, hr2]
    simp [List.replicate]
  have hsum : ((compute_speaker_stats c9Segs).map Speaker.percentage).sum =
      9994 / 100 := by
    rw [hpct]
    simp [List.sum_replicate]
    norm_num
  refine ⟨hsum, ?_, ?_, by norm_num⟩
  · rw [hsum]
    intro hcon
    rw [show (9994 : ℚ) / 100 - 100 = -(6/100) by norm_num, abs_neg,
      abs_of_nonneg (by norm_num)] at hcon
    norm_num at hcon
  · have hlen1 : (c9Segs.filter (fun s => s.speaker == "S1")).length = 3 := by
      decide
    have havg1 : pyInt (((((c9Segs.filter (fun s => s.speaker == "S1")).map
        (fun s => s.stop - s.start)).sum : Int) : ℚ) /
        (((c9Segs.filter (fun s => s.speaker == "S1")).length : Nat) : ℚ)) =
        4289 := by
      rw [htd1, hlen1]
      rw [pyInt_of_nonneg (by norm_num)]
      push_cast
      norm_num
    unfold compute_speaker_stats
    rw [List.map_map, hfa]
    simp only [List.map_cons, List.map_nil, Function.comp]
    rw [List.getElem?_cons_zero]
    rw [havg1]

/-- Witness for `C9_amended` on the 13-speaker segment list. -/
theorem C9_amended_witness :
    |((compute_speaker_stats c9Segs).map Speaker.percentage).sum - 100| ≤
      ((compute_speaker_stats c9Segs).length : ℚ) / 200 :=
  (C9_amended c9Segs (by decide)).2

/-! ## Public status mapping of the polling endpoints (C10)

`get_transcription` (`src/api/routers/stt.py`) and `get_diarization`
(`src/api/routers/diarization.py`) map the stored status string through a
`status_map` dict with default `TranscriptionStatus.QUEUED`
(`status_map.get(status, QUEUED)`): the stt map has entries for queued /
processing / completed / failed→ERROR / error→ERROR (no `pending` key —
the default covers it); the diarization map also lists
`pending`→QUEUED.  `TranscriptionStatus` has no `pending` member and
renders `failed` as `"error"`. -/

/-- The status dict of `get_transcription` with its `.get` default. -/
def transcription_status_map (s : String) : TranscriptionStatus :=
  if s = "queued" then .queued
  else if s = "processing" then .processing
  else if s = "completed" then .completed
  else if s = "failed" then .error
  else if s = "error" then .error
  else .queued

/-- The status dict of `get_diarization` with its `.get` default. -/
def diarization_status_map (s : String) : TranscriptionStatus :=
  if s = "pending" then .queued
  else if s = "queued" then .queued
  else if s = "processing" then .processing
  else if s = "completed" then .completed
  else if s = "failed" then .error
  else if s = "error" then .error
  else .queued

/-- The wire value of each `TranscriptionStatus` member
(`src/models/stt.py`). -/
def statusString : TranscriptionStatus → String
  | .queued => "queued"
  | .processing => "processing"
  | .completed => "completed"
  | .error => "error"

/-- CLAIM C10.  The transcription and diarization polling endpoints never
expose the stored statuses `pending` or `failed` verbatim: a stored
`pending` (or any unrecognized status) is reported as `queued`, and a
stored `failed` is reported as `error`; no reachable response status
string is `"pending"` or `"failed"`. -/
theorem C10_status_mapping :
    transcription_status_map "pending" = .queued ∧
    diarization_status_map "pending" = .queued ∧
    transcription_status_map "failed" = .error ∧
    diarization_status_map "failed" = .error ∧
    (∀ s : String,
      s ∉ ["queued", "processing", "completed", "failed", "error"] →
      transcription_status_map s = .queued) ∧
    (∀ s : String,
      s ∉ ["pending", "queued", "processing", "completed", "failed", "error"] →
      diarization_status_map s = .queued) ∧
    (∀ s : String,
      statusString (transcription_status_map s) ≠ "pending" ∧
      statusString (transcription_status_map s) ≠ "failed" ∧
      statusString (diarization_status_map s) ≠ "pending" ∧
      statusString (diarization_status_map s) ≠ "failed") := by
  refine ⟨by decide, by decide, by decide, by decide, ?_, ?_, ?_⟩
  · intro s hs
    simp only [List.mem_cons, List.mem_singleton, not_or] at hs
    obtain ⟨h1, h2, h3, h4, h5, _⟩ := hs
    unfold transcription_status_map
    rw [if_neg h1, if_neg h2, if_neg h3, if_neg h4, if_neg h5]
  · intro s hs
    simp only [List.mem_cons, List.mem_singleton, not_or] at hs
    obtain ⟨h0, h1, h2, h3, h4, h5, _⟩ := hs
    unfold diarization_status_map
    rw [if_neg h0, if_neg h1, if_neg h2, if_neg h3, if_neg h4, if_neg h5]
  · intro s
    unfold transcription_status_map diarization_status_map
    refine ⟨?_, ?_, ?_, ?_⟩ <;> split_ifs <;> decide

/-- Witness for `C10_status_mapping` at an unrecognized stored status. -/
theorem C10_status_mapping_witness :
    transcription_status_map "mystery" = .queued ∧
    diarization_status_map "mystery" = .queued :=
  ⟨C10_status_mapping.2.2.2.2.1 "mystery" (by decide),
   C10_status_mapping.2.2.2.2.2.1 "mystery" (by decide)⟩
